import Mathlib

/-!
Verification development for the LangueDeChat dialogue-management core.

The definitions below are a shallow embedding of the Python sources:
`lib/match.py`, `lib/KBManager.py`, `lib/StateTracker.py`,
`lib/DialogueManager.py`, `lib/RBAgent.py`, `lib/UserSimulator.py` and
`lib/RLAgent.py`.  Python dictionaries are modelled as association lists
(first binding wins, in-place replacement on update), Python sets as
`Finset String`, and every `random.choice` / `random.random()` draw is an
explicit oracle argument.  Machine reals appearing in the reward formula are
modelled as exact rationals.
-/

/-- A Python value as used by the dialogue core: an `int` or a `str`. -/
inductive PyVal where
  | vint (n : ℤ)
  | vstr (s : String)
deriving DecidableEq, Repr

/-- A Python `dict` from string keys to values, as an association list. -/
abbrev Dict := List (String × PyVal)

/-- `d[k]` lookup; `none` models a `KeyError` site. -/
def dlookup (d : Dict) (k : String) : Option PyVal :=
  match d with
  | [] => none
  | p :: t => if p.1 = k then some p.2 else dlookup t k

/-- `k in d`. -/
def dcontains (d : Dict) (k : String) : Bool :=
  (dlookup d k).isSome

/-- The keys of a dict, in insertion order. -/
def dkeys (d : Dict) : List String := d.map Prod.fst

/-- `d[k] = v`: replace in place if present, else append (insertion order). -/
def dinsert (d : Dict) (k : String) (v : PyVal) : Dict :=
  if dcontains d k then d.map (fun p => if p.1 = k then (k, v) else p)
  else d ++ [(k, v)]

/-- `d.pop(k, None)`. -/
def derase (d : Dict) (k : String) : Dict :=
  d.filter (fun p => p.1 ≠ k)

/-- `d.update(other)`. -/
def dupdate (d other : Dict) : Dict :=
  other.foldl (fun a p => dinsert a p.1 p.2) d

-- ------------------- config.py -------------------

def INTENT_INF : String := "INFORM"
def INTENT_REQ : String := "REQUEST"
def GOAL_KEY : String := "doi"

def AGT_INF_KEYS : List String :=
  ["authors", "document_title", "publication_title", "content_type",
   "publisher", "open_access", "publication_year", "abstract",
   "num_citations", GOAL_KEY]

def USR_INF_NUM_KEYS : List String :=
  ["publication_year", "min_publication_year", "max_publication_year",
   "min_num_citations"]

def USR_INF_STR_KEYS : List String :=
  ["authors", "document_title", "publication_title", "publisher", "keywords"]

def USR_INF_ENUM_KEYS : List String := ["open_access", "content_type"]

def USR_INF_KEYS : List String :=
  USR_INF_NUM_KEYS ++ USR_INF_STR_KEYS ++ USR_INF_ENUM_KEYS

def AGT_REQ_KEYS : List String := USR_INF_KEYS
def USR_REQ_KEYS : List String := AGT_INF_KEYS

/-- The wildcard value `OWT = "ANYTHING"`. -/
def OWT : String := "ANYTHING"
def OWTv : PyVal := .vstr OWT

/-- The synthetic matches-all key `MA = "MATCHING ALL"`. -/
def MA : String := "MATCHING ALL"

/-- The no-match sentinel `NMA = "NO MATCH AVAILABLE"`. -/
def NMA : String := "NO MATCH AVAILABLE"

def USRSIM_INIT_INF : List String := []

def USRSIM_REQ_ONLY_AFTER_AGT_INF : List String :=
  ["open_access", "publication_year", "num_citations", "content_type"]

/-- An agent action from the configured action space: `(INFORM, key)` or
`(REQUEST, key)` tuples of `config.AGT_ACTS`. -/
inductive AgtAct where
  | inf (key : String)
  | req (key : String)
deriving DecidableEq, Repr

/-- `config.AGT_ACTS`: the agent action list. -/
def AGT_ACTS : List AgtAct :=
  AGT_INF_KEYS.map .inf ++ AGT_REQ_KEYS.map .req

/-- A user action: one of the special acts `THANKS` / `REJECT`, or a
structured act with an inform dict and a request list. -/
inductive UserAction where
  | thanks
  | reject
  | act (informs : Dict) (requests : List String)
deriving DecidableEq, Repr

/-- An agent action after processing by the state tracker: special acts
`NO MATCH AVAILABLE` / `WITHDRAW CURRENT PROPOSALS`, a completed inform
`(INFORM, key, value)`, or a request `(REQUEST, key)`. -/
inductive AgtProcessed where
  | nma
  | wcp
  | infv (key : String) (value : PyVal)
  | req (key : String)
deriving DecidableEq, Repr

-- ------------------- match.py -------------------

/-- A character kept by `re.sub(r'[^\w\s]','', v)` (ASCII reading of `\w\s`). -/
def keepChar (c : Char) : Bool :=
  c.isAlphanum || c = '_' || c.isWhitespace

/-- Strip punctuation and lower-case, as in `_preprocess`. -/
def cleanStr (s : String) : String :=
  ((s.data.filter keepChar).map Char.toLower).asString

/-- Numeric value of an all-digit string (`int(v)` on an `isdigit` string). -/
def digitsVal (s : String) : ℤ :=
  s.data.foldl (fun a c => a * 10 + ((c.toNat : ℤ) - 48)) 0

/-- `int(x)` as used inside the range-comparison lambdas.  In Python a
non-numeric string raises `ValueError`; that case is modelled as `0` and is
never exercised by any theorem below (range fields hold integers). -/
def pyIntD (v : PyVal) : ℤ :=
  match v with
  | .vint n => n
  | .vstr s => if s.data ≠ [] ∧ s.data.all Char.isDigit then digitsVal s else 0

/-- `str(v)`. -/
def pyStr (v : PyVal) : String :=
  match v with
  | .vstr s => s
  | .vint n => toString n

/-- Value normalization of `_preprocess`: ints kept, digit strings coerced to
int, other strings stripped of punctuation and lower-cased. -/
def preprocessVal (v : PyVal) : PyVal :=
  match v with
  | .vint n => .vint n
  | .vstr s =>
      if s.data ≠ [] ∧ s.data.all Char.isDigit then .vint (digitsVal s)
      else .vstr (cleanStr s)

/-- `_preprocess`: drop wildcard-valued keys, then normalize each value. -/
def preprocess (d : Dict) : Dict :=
  (d.filter (fun p => p.2 ≠ OWTv)).map (fun p => (p.1, preprocessVal p.2))

/-- Whether the second char list starts with the first one. -/
def beginsWith : List Char → List Char → Bool
  | [], _ => true
  | _ :: _, [] => false
  | a :: as, b :: bs => a = b && beginsWith as bs

/-- Whether `needle` occurs as a contiguous run in the char list
(`str.find(word) != -1`). -/
def containsSeq (needle : List Char) : List Char → Bool
  | [] => beginsWith needle []
  | c :: t => beginsWith needle (c :: t) || containsSeq needle t

/-- `hay.find(word) != -1`. -/
def strFind (hay word : String) : Bool := containsSeq word.data hay.data

/-- `value.split()`: whitespace-split, empty tokens dropped. -/
def pySplit (s : String) : List String :=
  (s.split Char.isWhitespace).filter (fun w => w ≠ "")

/-- `_find_words(context, key, value)`: vacuous if `key` is absent, else every
token of `value` must be a substring of `context[key]`. -/
def find_words (context : Dict) (key : String) (value : PyVal) : Bool :=
  match dlookup context key with
  | none => true
  | some cv => (pySplit (pyStr value)).all (fun w => strFind (pyStr cv) w)

/-- `_match_lambda(key, context, f, v)`: vacuous if `key` is absent from the
context, else apply the comparison. -/
def match_lambda (key : String) (context : Dict)
    (f : PyVal → PyVal → Bool) (v : PyVal) : Bool :=
  match dlookup context key with
  | none => true
  | some cv => f cv v

/-- `int(x) >= int(y)`. -/
def geCmp (x y : PyVal) : Bool := decide (pyIntD x ≥ pyIntD y)

/-- `int(x) <= int(y)`. -/
def leCmp (x y : PyVal) : Bool := decide (pyIntD x ≤ pyIntD y)

/-- `CONSTRAINING_KEYS_MAPS`: each range-constraining key maps to its
constrained key and comparison function. -/
def CONSTRAINING_KEYS_MAPS (key : String) :
    Option (String × (PyVal → PyVal → Bool)) :=
  if key = "min_num_citations" then some ("num_citations", geCmp)
  else if key = "min_publication_year" then some ("publication_year", geCmp)
  else if key = "max_publication_year" then some ("publication_year", leCmp)
  else none

/-- `CONSTRAINED_KEYS_MAPS`: the inverse table, derived in the source by
iterating `CONSTRAINING_KEYS_MAPS` in insertion order. -/
def CONSTRAINED_KEYS_MAPS (key : String) :
    List (String × (PyVal → PyVal → Bool)) :=
  if key = "num_citations" then [("min_num_citations", geCmp)]
  else if key = "publication_year" then
    [("min_publication_year", geCmp), ("max_publication_year", leCmp)]
  else []

/-- `_match_keywords`: tokens searched in abstract, document title or
publication title. -/
def match_keywords (context : Dict) (keywords : PyVal) : Bool :=
  find_words context "abstract" keywords
  || find_words context "document_title" keywords
  || find_words context "publication_title" keywords

/-- The `special_constraints` table of free-text matchers. -/
def special_constraints (key : String) : Option (Dict → PyVal → Bool) :=
  if key = "authors" then some (fun c v => find_words c "authors" v)
  else if key = "document_title" then
    some (fun c v => find_words c "document_title" v)
  else if key = "publication_title" then
    some (fun c v => find_words c "publication_title" v)
  else if key = "publisher" then some (fun c v => find_words c "publisher" v)
  else if key = "keywords" then some match_keywords
  else none

/-- The body of the `get_conflict_keys` loop for one inform pair. -/
def conflictStep (context : Dict) (acc : Finset String) (p : String × PyVal) :
    Finset String :=
  let acc1 :=
    match CONSTRAINING_KEYS_MAPS p.1 with
    | some q => if match_lambda q.1 context q.2 p.2 then acc else insert q.1 acc
    | none => acc
  let acc2 := (CONSTRAINED_KEYS_MAPS p.1).foldl
    (fun a q =>
      if match_lambda q.1 context (fun x y => q.2 y x) p.2 then a
      else insert q.1 a) acc1
  match special_constraints p.1 with
  | some sc => if sc context p.2 then acc2 else insert p.1 acc2
  | none =>
      if match_lambda p.1 context (fun x y => decide (x = y)) p.2 then acc2
      else insert p.1 acc2

/-- `get_conflict_keys(inform, context)` from `lib/match.py`. -/
def get_conflict_keys (inform context : Dict) : Finset String :=
  (preprocess inform).foldl (conflictStep (preprocess context)) ∅

-- ------------------- KBManager.py -------------------

/-- The knowledge base: an ordered list of documents. -/
abbrev KB := List Dict

/-- `KBManager.find_matching_docs`.  The memoization cache is omitted: the
knowledge base is immutable, cache entries are only ever filled with the
recomputed value, and empty results are recomputed identically, so the cache
is observationally transparent. -/
def find_matching_docs (kb : KB) (constraints : Dict) : List Dict :=
  kb.filter (fun doc => decide (get_conflict_keys constraints doc = ∅))

/-- The candidate value list cached by `KBManager.find_matching_value`:
`[NMA]` when no document matches, else `str(doc[key])` for each match. -/
def matching_values (kb : KB) (key : String) (constraints : Dict) :
    List String :=
  let documents := find_matching_docs kb constraints
  if documents = [] then [NMA]
  else documents.map (fun doc => pyStr ((dlookup doc key).getD (.vstr "")))

/-- `KBManager.find_matching_value`: a uniformly random element of the
candidate list; the random draw is the `choice` oracle argument, reduced
modulo the (always positive) list length. -/
def find_matching_value (kb : KB) (key : String) (constraints : Dict)
    (choice : ℕ) : String :=
  (matching_values kb key constraints).getD
    (choice % (matching_values kb key constraints).length) ""

/-- The match-count dictionary returned by `count_matches`. -/
abbrev CountDict := List (String × ℕ)

/-- Lookup in a count dictionary. -/
def clookup (d : CountDict) (k : String) : Option ℕ :=
  match d with
  | [] => none
  | p :: t => if p.1 = k then some p.2 else clookup t k

/-- `md[k] = v` on a count dictionary. -/
def cinsert (d : CountDict) (k : String) (v : ℕ) : CountDict :=
  if (clookup d k).isSome then d.map (fun p => if p.1 = k then (k, v) else p)
  else d ++ [(k, v)]

/-- `KBManager.count_matches`: start from the `MA` entry, then add one entry
per constraint key (full KB size for wildcard values, single-constraint match
count otherwise). -/
def count_matches (kb : KB) (constraints : Dict) : CountDict :=
  constraints.foldl
    (fun md p =>
      cinsert md p.1
        (if p.2 = OWTv then kb.length
         else (find_matching_docs kb [p]).length))
    [(MA, (find_matching_docs kb constraints).length)]

/-- `KBManager.check_goal_proposal_consistency`: destructure the match list
for `{GOAL_KEY: goal_proposal}` as a single document; `none` models the
`ValueError` raised when the list does not have exactly one element. -/
def check_goal_proposal_consistency (kb : KB) (goal_proposal : PyVal)
    (constraints : Dict) : Option Bool :=
  match find_matching_docs kb [(GOAL_KEY, goal_proposal)] with
  | [proposed_doc] => some (decide (get_conflict_keys constraints proposed_doc = ∅))
  | _ => none

/-- `KBManager.get_kb_size`. -/
def get_kb_size (kb : KB) : ℕ := kb.length

-- ------------------- StateTracker.py -------------------

/-- The internal state of `StateTracker` (the `KBManager` is passed to the
operations explicitly). -/
structure TrackerState where
  curr_agt_inf : Dict
  curr_usr_inf : Dict
  curr_constraints : Dict
  curr_usr_req : Finset String
  last_agt_act : Option AgtProcessed
  last_usr_act : Option UserAction
deriving DecidableEq

namespace StateTracker

/-- `StateTracker.reset`. -/
def reset : TrackerState :=
  { curr_agt_inf := [], curr_usr_inf := [], curr_constraints := [],
    curr_usr_req := ∅, last_agt_act := none, last_usr_act := none }

/-- `StateTracker._reset_agent_informs`. -/
def reset_agent_informs (s : TrackerState) : TrackerState :=
  { s with curr_agt_inf := [], curr_constraints := s.curr_usr_inf }

/-- `StateTracker.process_user_action`. -/
def process_user_action (s : TrackerState) (ua : UserAction) : TrackerState :=
  let s1 :=
    match ua with
    | .reject => reset_agent_informs s
    | .thanks => s
    | .act informs requests =>
        let s2 := if get_conflict_keys informs s.curr_agt_inf ≠ ∅
                  then reset_agent_informs s else s
        { s2 with
          curr_usr_inf := dupdate s2.curr_usr_inf informs,
          curr_constraints := dupdate s2.curr_constraints informs,
          curr_usr_req := s2.curr_usr_req ∪ requests.toFinset }
  { s1 with last_usr_act := some ua }

/-- `StateTracker.process_agent_action`; the `choice` oracle feeds the random
draw inside `find_matching_value`. -/
def process_agent_action (kb : KB) (s : TrackerState) (a : AgtAct)
    (choice : ℕ) : TrackerState × AgtProcessed :=
  match a with
  | .req key =>
      ({ s with last_agt_act := some (.req key) }, .req key)
  | .inf key =>
      let s1 := { s with curr_constraints := derase s.curr_constraints key }
      let value := find_matching_value kb key s1.curr_constraints choice
      if value = NMA then
        if s1.curr_agt_inf ≠ [] then
          let s2 := reset_agent_informs s1
          ({ s2 with last_agt_act := some .wcp }, .wcp)
        else
          ({ s1 with last_agt_act := some .nma }, .nma)
      else
        let s2 := { s1 with
          curr_agt_inf := dinsert s1.curr_agt_inf key (.vstr value),
          curr_constraints := dinsert s1.curr_constraints key (.vstr value) }
        ({ s2 with last_agt_act := some (.infv key (.vstr value)) },
          .infv key (.vstr value))

end StateTracker

-- ------------------- DialogueManager.py -------------------

/-- The two experience buffers of `DialogueManager` with their configured
sizes; the experience tuple type is abstract. -/
structure DMBuffers (Exp : Type) where
  warmup_mem : List Exp
  rl_mem : List Exp
  warmup_mem_size : ℕ
  rl_mem_size : ℕ

/-- `DialogueManager.add_experience`: return `true` ("full") and leave the
buffers unchanged when the selected buffer already holds exactly its
configured size, else append the experience to the selected buffer and
return `false`. -/
def add_experience {Exp : Type} (b : DMBuffers Exp) (e : Exp)
    (warmup : Bool) : DMBuffers Exp × Bool :=
  if (b.warmup_mem.length = b.warmup_mem_size ∧ warmup = true)
     ∨ (b.rl_mem.length = b.rl_mem_size ∧ warmup = false) then (b, true)
  else if warmup = true then
    ({ b with warmup_mem := b.warmup_mem ++ [e] }, false)
  else
    ({ b with rl_mem := b.rl_mem ++ [e] }, false)

/-- Both buffers are within their configured capacities. -/
def withinCap {Exp : Type} (b : DMBuffers Exp) : Prop :=
  b.warmup_mem.length ≤ b.warmup_mem_size ∧
  b.rl_mem.length ≤ b.rl_mem_size

/-- A sequence of `add_experience` calls, keeping the buffer states. -/
def addExperienceRun {Exp : Type} (b : DMBuffers Exp)
    (calls : List (Exp × Bool)) : DMBuffers Exp :=
  calls.foldl (fun a c => (add_experience a c.1 c.2).1) b

-- ------------------- RBAgent.py -------------------

/-- The internal state of `RBAgent`. -/
structure RBState where
  curr_agt_inf : Dict
  curr_usr_inf : Dict
  curr_OWT_inf : Finset String
  curr_usr_req : Finset String
  pending_usr_req : Finset String
deriving DecidableEq

/-- The random draws of one `RBAgent.get_action` call: `b1`–`b3` are the
`random.random() < p` tests, `i1`–`i6` the `random.choice` indices. -/
structure RBRand where
  b1 : Bool
  b2 : Bool
  b3 : Bool
  i1 : ℕ
  i2 : ℕ
  i3 : ℕ
  i4 : ℕ
  i5 : ℕ
  i6 : ℕ

/-- `random.choice` over a list: a member selected by the oracle index (the
call sites only draw from non-empty lists). -/
def pickL (l : List String) (i : ℕ) : String := l.getD (i % l.length) ""

/-- `list(s)` for a Python set of strings. -/
def sortedKeys (s : Finset String) : List String := s.sort (· ≤ ·)

/-- `random.choice(list(s))` for a Python set. -/
def pickF (s : Finset String) (i : ℕ) : String := pickL (sortedKeys s) i

namespace RBAgent

/-- `RBAgent.reset`. -/
def reset : RBState :=
  { curr_agt_inf := [], curr_usr_inf := [], curr_OWT_inf := ∅,
    curr_usr_req := ∅, pending_usr_req := ∅ }

/-- `RBAgent._reset_agent_informs`. -/
def reset_agent_informs (s : RBState) : RBState :=
  { s with curr_agt_inf := [], pending_usr_req := s.curr_usr_req }

/-- `RBAgent.record_processed_action`. -/
def record_processed_action (s : RBState) (a : AgtProcessed) : RBState :=
  match a with
  | .wcp => reset_agent_informs s
  | .infv key value =>
      { s with curr_agt_inf := dinsert s.curr_agt_inf key value }
  | _ => s

/-- The state-update half of `RBAgent.get_action` (processing the incoming
user act, mirroring the tracker). -/
def process_user_act (s : RBState) (ua : UserAction) : RBState :=
  match ua with
  | .reject => reset_agent_informs s
  | .thanks => s
  | .act informs requests =>
      let s1 := if get_conflict_keys informs s.curr_agt_inf ≠ ∅
                then reset_agent_informs s else s
      let informKeys := (dkeys informs).toFinset
      let owtKeys := ((informs.filter (fun p => p.2 = OWTv)).map Prod.fst).toFinset
      let notOwtKeys :=
        ((informs.filter (fun p => p.2 ≠ OWTv)).map Prod.fst).toFinset
      { s1 with
        curr_usr_inf := dupdate s1.curr_usr_inf informs,
        curr_usr_req := (s1.curr_usr_req ∪ requests.toFinset) \ informKeys,
        pending_usr_req :=
          (s1.pending_usr_req ∪ requests.toFinset) \ informKeys,
        curr_OWT_inf := (s1.curr_OWT_inf ∪ owtKeys) \ notOwtKeys }

/-- `already_inf = self._curr_agt_inf | self._curr_usr_inf`. -/
def already_inf (s : RBState) : Dict :=
  dupdate s.curr_agt_inf s.curr_usr_inf

/-- The irrelevant keys of `RBAgent.get_action` step 3: keys already informed
by either side, plus any key range-constraining an informed key. -/
def irrelevant_keys (s : RBState) : Finset String :=
  (dkeys (already_inf s)).toFinset ∪
  ((dkeys (already_inf s)).foldl
    (fun a k => a ++ (CONSTRAINED_KEYS_MAPS k).map Prod.fst) []).toFinset

/-- `req_keys` of step 3. -/
def rb_req_keys (s : RBState) : List String :=
  AGT_REQ_KEYS.filter (fun k => k ∉ irrelevant_keys s)

/-- `inf_keys` of step 3. -/
def rb_inf_keys (s : RBState) : List String :=
  AGT_INF_KEYS.filter (fun k => k ∉ irrelevant_keys s)

/-- `inf_OWT_keys` of step 3. -/
def rb_inf_OWT_keys (s : RBState) : List String :=
  (sortedKeys s.curr_OWT_inf).filter (fun k => k ∈ AGT_INF_KEYS)

/-- Step 3 of `RBAgent.get_action` plus the preceding pending-request branch:
the action-selection priority rules. -/
def select_action (s : RBState) (r : RBRand) : AgtAct :=
  if s.pending_usr_req ≠ ∅ then .inf (pickF s.pending_usr_req r.i2)
  else if GOAL_KEY ∈ rb_inf_keys s ∧ r.b1 = true then .inf GOAL_KEY
  else if rb_req_keys s ≠ [] ∧ r.b2 = true then
    .req (pickL (rb_req_keys s) r.i3)
  else if rb_inf_keys s ≠ [] then .inf (pickL (rb_inf_keys s) r.i4)
  else if rb_inf_OWT_keys s ≠ [] ∧ r.b3 = true then
    .inf (pickL (rb_inf_OWT_keys s) r.i5)
  else .req (pickL AGT_REQ_KEYS r.i6)

/-- `RBAgent.get_action`: process the user act, choose the action (a direct
user request takes priority, then pending requests, then the random rules),
then drop an informed key from the pending requests. -/
def get_action (s0 : RBState) (ua : UserAction) (r : RBRand) :
    RBState × AgtAct :=
  let s := process_user_act s0 ua
  let action :=
    match ua with
    | .act _ requests =>
        if requests ≠ [] then AgtAct.inf (pickL requests r.i1)
        else select_action s r
    | _ => select_action s r
  let s2 :=
    match action with
    | .inf k => { s with pending_usr_req := s.pending_usr_req.erase k }
    | .req _ => s
  (s2, action)

end RBAgent

/-- A user action built from the configured user inform/request keys (only
the request keys matter for the action-space claim). -/
def UAwf : UserAction → Prop
  | .act _ requests => ∀ k ∈ requests, k ∈ USR_REQ_KEYS
  | _ => True

/-- The request-set invariant of a rule-based agent state. -/
def RBInv (s : RBState) : Prop :=
  s.pending_usr_req ⊆ USR_REQ_KEYS.toFinset ∧
  s.curr_usr_req ⊆ USR_REQ_KEYS.toFinset

/-- The states of `RBAgent` reachable from `reset` through `get_action` calls
on well-formed user actions and `record_processed_action` calls. -/
inductive RBReachable : RBState → Prop where
  | reset : RBReachable RBAgent.reset
  | get : ∀ s ua r, RBReachable s → UAwf ua →
      RBReachable (RBAgent.get_action s ua r).1
  | record : ∀ s a, RBReachable s →
      RBReachable (RBAgent.record_processed_action s a)

-- ------------------- UserSimulator.py -------------------

/-- A user goal: an inform mapping and a request list. -/
structure UsrGoal where
  informs : Dict
  requests : List String
deriving DecidableEq

/-- The internal state of `UserSimulator`; the drawn goal and the patience
are carried in the state. -/
structure UsrState where
  goal : UsrGoal
  patience : ℕ
  curr_agt_inf : Dict
  already_matched_inf : Finset String
  not_sent_inf : Finset String
  not_answ_req : Finset String
  satisfied : Bool
  round : ℕ
deriving DecidableEq

/-- The random draws of one `UserSimulator` call: `b1`–`b3` are the
`random.random() < p` tests and `n1`–`n2` the `random.choice` indices, in
evaluation order on each path (the paths use disjoint draws). -/
structure USRand where
  b1 : Bool
  b2 : Bool
  b3 : Bool
  n1 : ℕ
  n2 : ℕ

/-- Python `round` on an exact rational: round half to even (the reward
weight is a machine float in the source; it is modelled exactly). -/
def pyRound (q : ℚ) : ℤ :=
  if q - (⌊q⌋ : ℚ) < 1/2 then ⌊q⌋
  else if (1 : ℚ)/2 < q - (⌊q⌋ : ℚ) then ⌊q⌋ + 1
  else if ⌊q⌋ % 2 = 0 then ⌊q⌋ else ⌊q⌋ + 1

namespace UserSimulator

/-- `UserSimulator.reset` for a drawn goal (the `random.choice` over the goal
file is the caller's pick). -/
def reset (goal : UsrGoal) (patience : ℕ) : UsrState :=
  { goal := goal, patience := patience, curr_agt_inf := [],
    already_matched_inf := ∅,
    not_sent_inf := (dkeys goal.informs).toFinset,
    not_answ_req := (goal.requests ++ [GOAL_KEY]).toFinset,
    satisfied := false, round := 0 }

/-- `UserSimulator._filter_req_keys`. -/
def filter_req_keys (s : UsrState) (keys : List String) : List String :=
  if s.curr_agt_inf ≠ [] then keys
  else keys.filter (fun k => k ∉ USRSIM_REQ_ONLY_AFTER_AGT_INF)

/-- `UserSimulator._reset_agent_informs`. -/
def reset_agent_informs (s : UsrState) : UsrState :=
  { s with
    curr_agt_inf := [],
    not_answ_req := (s.goal.requests ++ [GOAL_KEY]).toFinset,
    not_sent_inf := s.not_sent_inf ∪ s.already_matched_inf,
    already_matched_inf := ∅ }

/-- `UserSimulator._pick_random_action`, acting on the (inform, request)
action under construction; may replace it by `THANKS`.  The
`self._goal[INF][key]` lookups cannot fail on reachable states (the not-sent
set holds goal-inform keys); the default is never exercised. -/
def pick_random_action (s : UsrState) (informs : Dict)
    (requests : List String) (r : USRand) : UserAction :=
  let requestable_keys := filter_req_keys s (sortedKeys s.not_answ_req)
  if s.not_sent_inf ≠ ∅ ∧ r.b1 = true then
    let key := pickF s.not_sent_inf r.n1
    if key ∈ filter_req_keys s USR_REQ_KEYS ∧ r.b2 = true then
      .act informs (requests ++ [key])
    else
      .act (dinsert informs key ((dlookup s.goal.informs key).getD OWTv))
        requests
  else if requestable_keys ≠ [] ∧ r.b3 = true then
    .act informs (requests ++ [pickL requestable_keys r.n2])
  else
    .thanks

/-- The state update of the conflict branch of
`UserSimulator._response_to_inform`. -/
def rti_conflict_state (s : UsrState) (conflict_keys : Finset String) :
    UsrState :=
  let s1 := reset_agent_informs s
  { s1 with not_sent_inf := s1.not_sent_inf ∪ conflict_keys }

/-- The state update of the no-conflict branch of
`UserSimulator._response_to_inform`. -/
def rti_update_state (s : UsrState) (infKey : String) (infValue : PyVal) :
    UsrState :=
  let s1 := if dcontains s.curr_agt_inf infKey = true ∧
               dlookup s.curr_agt_inf infKey ≠ some infValue
            then reset_agent_informs s else s
  let constraining_keys :=
    ((CONSTRAINED_KEYS_MAPS infKey).map Prod.fst).filter
      (fun ck => dcontains s1.goal.informs ck)
  let s2 := { s1 with
    already_matched_inf :=
      s1.already_matched_inf ∪ constraining_keys.toFinset,
    not_sent_inf := s1.not_sent_inf \ constraining_keys.toFinset }
  let s3 := if dcontains s2.goal.informs infKey = true ∧
               infKey ∈ s2.not_sent_inf
            then { s2 with
              already_matched_inf := insert infKey s2.already_matched_inf }
            else s2
  let s4 := { s3 with
    not_sent_inf := s3.not_sent_inf.erase infKey,
    not_answ_req := s3.not_answ_req.erase infKey,
    curr_agt_inf := dinsert s3.curr_agt_inf infKey infValue }
  { s4 with
    satisfied := decide ((s4.not_answ_req ∪ s4.not_sent_inf) = ∅) }

/-- `UserSimulator._response_to_inform`: returns the updated state and the
chosen action (the action under construction is always empty on entry). -/
def response_to_inform (s : UsrState) (infKey : String) (infValue : PyVal)
    (r : USRand) : UsrState × UserAction :=
  let conflict_keys := get_conflict_keys [(infKey, infValue)] s.goal.informs
  if conflict_keys ≠ ∅ then
    let s2 := rti_conflict_state s conflict_keys
    let key := pickF conflict_keys r.n1
    if r.b1 = true then
      (s2, .act [(key, (dlookup s2.goal.informs key).getD OWTv)] [])
    else
      (s2, .reject)
  else
    let s5 := rti_update_state s infKey infValue
    (s5, pick_random_action s5 [] [] r)

/-- `UserSimulator._response_to_request`: only the action is built, the state
is untouched. -/
def response_to_request (s : UsrState) (reqKey : String) (r : USRand) :
    UserAction :=
  let active_constraining_keys :=
    ((CONSTRAINED_KEYS_MAPS reqKey).map Prod.fst).filter
      (fun ck => dcontains s.goal.informs ck)
  if dcontains s.goal.informs reqKey = true then
    .act [(reqKey, (dlookup s.goal.informs reqKey).getD OWTv)] []
  else if active_constraining_keys ≠ [] then
    .act (active_constraining_keys.foldl
      (fun d ack => dinsert d ack ((dlookup s.goal.informs ack).getD OWTv))
      []) []
  else if reqKey ∈ s.goal.requests then
    if dcontains s.curr_agt_inf reqKey = true ∧ r.b1 = true then
      .act [(reqKey, (dlookup s.curr_agt_inf reqKey).getD OWTv)] []
    else if reqKey ∈ filter_req_keys s s.goal.requests ∧ r.b2 = true then
      .act [] [reqKey]
    else
      .act [(reqKey, OWTv)] []
  else
    if s.not_sent_inf ≠ ∅ ∧ r.b3 = true then
      let key := pickF s.not_sent_inf r.n1
      .act (dinsert [(reqKey, OWTv)] key
        ((dlookup s.goal.informs key).getD OWTv)) []
    else
      .act [(reqKey, OWTv)] []

/-- `UserSimulator.get_init_action`: the state effect (discarding the sent
keys from the not-sent set) and the emitted action.  `USRSIM_INIT_INF` is
empty in the configuration, so one random goal inform is always sent;
`random.choice` on an empty goal-inform dict would raise and is modelled by
the empty inform list. -/
def get_init_action (s : UsrState) (r : USRand) : UsrState × UserAction :=
  let initInforms : Dict :=
    USRSIM_INIT_INF.foldl
      (fun d key => if dcontains s.goal.informs key = true
        then dinsert d key ((dlookup s.goal.informs key).getD OWTv)
        else d) []
  let informs :=
    if initInforms = [] then
      match s.goal.informs.get? (r.n1 % s.goal.informs.length) with
      | some p => [p]
      | none => []
    else initInforms
  let s1 := { s with
    not_sent_inf := (dkeys informs).foldl Finset.erase s.not_sent_inf }
  let requestable_keys := filter_req_keys s s.goal.requests
  if requestable_keys ≠ [] then
    (s1, .act informs [pickL requestable_keys r.n2])
  else
    (s1, .act informs [])

/-- The reward computed at the end of `UserSimulator.step`, on the state after
the own-action update.  The divisions are exact rationals (a goal with no
informs would raise `ZeroDivisionError` in the source; theorems assume a
non-empty goal-inform mapping). -/
def rewardOf (s : UsrState) (d : Bool) : ℤ :=
  if d = false then -1
  else if s.satisfied = true then
    2 * (s.patience : ℤ) + ((s.goal.requests.length : ℤ) + (s.goal.informs.length : ℤ))
  else
    - pyRound ((((s.not_answ_req.card : ℚ) / ((s.goal.requests.length : ℚ) + 1))
      + ((s.not_sent_inf.card : ℚ) / (s.goal.informs.length : ℚ)))
      * (s.patience : ℚ))

/-- The tail of `UserSimulator.step`: update the not-sent set with the own
action's informs when the episode continues, then compute the reward and
return `(state, action, reward, done, satisfied)`. -/
def finish (s : UsrState) (action : UserAction) (d : Bool) :
    UsrState × UserAction × ℤ × Bool × Bool :=
  let s1 :=
    if d = false then
      match action with
      | .act informs _ =>
          { s with not_sent_inf :=
              (dkeys informs).foldl Finset.erase s.not_sent_inf }
      | _ => s
    else s
  (s1, action, rewardOf s1 d, d, s1.satisfied)

/-- `UserSimulator.step`.  The two `check_goal_proposal_consistency` calls
are abstracted by the total boolean `chk` (their own single-match
destructuring is the subject of `check_goal_proposal_consistency` above);
`none` models the `KeyError` on `self._curr_agt_inf[GOAL_KEY]` when the goal
key was never proposed. -/
def step (chk : PyVal → Dict → Bool) (s0 : UsrState) (aa : AgtProcessed)
    (r : USRand) : Option (UsrState × UserAction × ℤ × Bool × Bool) :=
  let s := { s0 with round := s0.round + 1 }
  let sa : UsrState × UserAction :=
    match aa with
    | .wcp =>
        let s1 := reset_agent_informs s
        (s1, pick_random_action s1 [] [] r)
    | .infv k v => response_to_inform s k v r
    | .req k => (s, response_to_request s k r)
    | .nma => (s, .act [] [])
  let s1 := sa.1
  let action := sa.2
  match aa with
  | .nma => some (finish { s1 with satisfied := false } action true)
  | _ =>
      let done := decide (s1.round = s1.patience) || s1.satisfied
      if s1.satisfied = true then
        match dlookup s1.curr_agt_inf GOAL_KEY with
        | none => none
        | some gid =>
            let sat2 := chk gid s1.goal.informs && chk gid s1.curr_agt_inf
            some (finish { s1 with satisfied := sat2 } action done)
      else
        some (finish s1 action done)

end UserSimulator

/-- The goal-key invariant of the user simulator: the goal key is pending in
the not-yet-answered request set or already among the agent's proposals. -/
def USInv (s : UsrState) : Prop :=
  GOAL_KEY ∈ s.not_answ_req ∨ dcontains s.curr_agt_inf GOAL_KEY = true

/-- Episode-reachable simulator states: a reset state, the initial-action
state effect, and `step` successor states while the episode has not
reported done. -/
inductive USReachable (chk : PyVal → Dict → Bool) : UsrState → Prop where
  | reset : ∀ goal patience, USReachable chk (UserSimulator.reset goal patience)
  | init : ∀ s r, USReachable chk s →
      USReachable chk (UserSimulator.get_init_action s r).1
  | step : ∀ s aa r s2 act rew sat, USReachable chk s →
      UserSimulator.step chk s aa r = some (s2, act, rew, false, sat) →
      USReachable chk s2

/-- The unsuccessful-termination reward formula exactly as parenthesized in
the claim: `round` applied to the ratio sum alone, the result then multiplied
by the patience. -/
def claim_unsat_reward (patience nReq nInf nNotAnsw nNotSent : ℕ) : ℤ :=
  (- pyRound ((nNotAnsw : ℚ) / ((nReq : ℚ) + 1)
    + (nNotSent : ℚ) / (nInf : ℚ))) * (patience : ℤ)

/-- A concrete simulator state one round before the patience bound, with one
unanswered request and every goal inform sent. -/
def cexS : UsrState :=
  { goal := { informs := [("authors", PyVal.vstr "alice")],
              requests := ["document_title", "publisher"] },
    patience := 15, curr_agt_inf := [], already_matched_inf := ∅,
    not_sent_inf := ∅, not_answ_req := {"doi"},
    satisfied := false, round := 14 }

/-- A concrete oracle for the counterexample step. -/
def cexR : USRand := { b1 := false, b2 := true, b3 := false, n1 := 0, n2 := 0 }

-- ------------------- RLAgent.py -------------------

/-- An abstract Q-network: per state, the predicted value of each action of
`AGT_ACTS` (the keras model is a machine-float function approximator; it is
abstracted by an exact-rational valued function). -/
abbrev QNet (σ : Type) := σ → List ℚ

/-- An experience tuple `(state, action index, reward, next_state, done)`. -/
structure Experience (σ : Type) where
  s : σ
  a : ℕ
  r : ℚ
  sp : σ
  d : Bool

/-- `np.amax` of a row. -/
def listMax (l : List ℚ) : ℚ := l.foldl max (l.headD 0)

/-- `np.argmax`: the index of the first occurrence of the maximum. -/
def argmaxIdx (l : List ℚ) : ℕ := l.indexOf (listMax l)

/-- The default `vanilla` flag of `RLAgent.__init__`; the training scripts
construct the agent without overriding it. -/
def RLAgent.default_vanilla : Bool := true

/-- The Q-Learning update of one experience inside `RLAgent.train`: the
target row is the behavior prediction with the taken action's entry set to
`reward + gamma * v_prime`, where `v_prime` is `max targetQ(s')` for
vanilla DQN and `targetQ(s')[argmax behaviorQ(s')]` for Double DQN, zeroed
on terminal experiences (`v_prime *= not done`). -/
def q_target_row (gamma : ℚ) (vanilla : Bool)
    (q_row tar_q_prime beh_q_prime : List ℚ) (a : ℕ) (r : ℚ) (d : Bool) :
    List ℚ :=
  let v1 := if vanilla then listMax tar_q_prime
            else tar_q_prime.getD (argmaxIdx beh_q_prime) 0
  let v2 := if d then 0 else v1
  q_row.set a (r + gamma * v2)

/-- The minibatch partition of `RLAgent.train`:
`[experience_set[i : i + batch_size] for i in range(0, len, batch_size)]`
(a zero step would raise `ValueError` in Python; the batch size is
positive). -/
def make_batches {α : Type} : List α → ℕ → List (List α)
  | [], _ => []
  | _ :: _, 0 => []
  | a :: t, bs + 1 =>
      ((a :: t).take (bs + 1)) ::
        make_batches ((a :: t).drop (bs + 1)) (bs + 1)
termination_by l _ => l.length
decreasing_by
  simp [List.length_drop]
  omega

/-- The per-minibatch target matrix of `RLAgent.train`: behavior predictions
for the batch states, each row updated by the Q-Learning rule. -/
def batch_targets {σ : Type} (gamma : ℚ) (vanilla : Bool)
    (beh tar : QNet σ) (batch : List (Experience σ)) : List (List ℚ) :=
  batch.map (fun e =>
    q_target_row gamma vanilla (beh e.s) (tar e.sp) (beh e.sp) e.a e.r e.d)

/-- `RLAgent.train` as a function of the already-shuffled experience set
(`random.shuffle` is the caller's permutation) and an abstract optimizer
step `fit`: the target network is the frozen clone `beh0` taken once on
entry and used for every minibatch, and epsilon is decayed multiplicatively
exactly once at the end of the call. -/
def RLAgent.train {σ : Type} (gamma : ℚ) (vanilla : Bool) (batchSize : ℕ)
    (epsilonDecay : ℚ)
    (fit : QNet σ → List (Experience σ) → List (List ℚ) → QNet σ)
    (beh0 : QNet σ) (epsilon : ℚ) (shuffled : List (Experience σ)) :
    QNet σ × ℚ :=
  let tar := beh0
  ((make_batches shuffled batchSize).foldl
    (fun m batch => fit m batch (batch_targets gamma vanilla m tar batch))
    beh0,
   epsilon * epsilonDecay)

-- =====================================================================
--                              THEOREMS
-- =====================================================================

theorem dlookup_not_mem {d : Dict} {k : String} (h : k ∉ dkeys d) :
    dlookup d k = none := by
  induction d with
  | nil => rfl
  | cons p t ih =>
    have h1 : ¬ (p.1 = k) :=
      fun he => h (List.mem_map.mpr ⟨p, List.mem_cons_self p t, he⟩)
    have h2 : k ∉ dkeys t := by
      intro hm
      obtain ⟨q, hq, hqk⟩ := List.mem_map.mp hm
      exact h (List.mem_map.mpr ⟨q, List.mem_cons_of_mem p hq, hqk⟩)
    simp [dlookup, h1, ih h2]

theorem dkeys_preprocess_subset (d : Dict) :
    dkeys (preprocess d) ⊆ dkeys d := by
  intro k hk
  simp only [preprocess, dkeys, List.map_map, List.mem_map,
    Function.comp] at hk
  obtain ⟨p, hp, hk⟩ := hk
  exact hk ▸ List.mem_map.mpr ⟨p, (List.mem_filter.mp hp).1, rfl⟩

theorem preprocess_dlookup_none {d : Dict} {k : String} (h : k ∉ dkeys d) :
    dlookup (preprocess d) k = none :=
  dlookup_not_mem (fun hk => h (dkeys_preprocess_subset d hk))

theorem conflict_single_range (rk ck : String) (f : PyVal → PyVal → Bool)
    (hmap : CONSTRAINING_KEYS_MAPS rk = some (ck, f))
    (hcm : CONSTRAINED_KEYS_MAPS rk = [])
    (hsp : special_constraints rk = none)
    (context : Dict) (v : PyVal)
    (h1 : dlookup (preprocess context) ck = none)
    (h2 : dlookup (preprocess context) rk = none) :
    get_conflict_keys [(rk, v)] context = ∅ := by
  unfold get_conflict_keys
  by_cases hv : v = OWTv
  · simp [preprocess, hv]
  · have hpp : preprocess [(rk, v)] = [(rk, preprocessVal v)] := by
      simp [preprocess, hv]
    rw [hpp]
    simp only [List.foldl_cons, List.foldl_nil]
    simp [conflictStep, hmap, hcm, hsp, match_lambda, h1, h2]

/-- Claim C7: range constraints are one-directional.  A range-constraining
inform (`min_num_citations`, `min_publication_year`, `max_publication_year`)
against a context lacking both the constrained field and the constraining key
itself (as every document does) yields no conflict key; in particular
`{min_num_citations: 5}` does not conflict with a document lacking
`num_citations`, but conflicts — on `num_citations` — with a document having
`num_citations: 3`. -/
theorem C7_range_one_directional :
    (∀ p ∈ [("min_num_citations", "num_citations"),
            ("min_publication_year", "publication_year"),
            ("max_publication_year", "publication_year")],
      ∀ (context : Dict) (v : PyVal),
        p.2 ∉ dkeys context → p.1 ∉ dkeys context →
          get_conflict_keys [(p.1, v)] context = ∅) ∧
    get_conflict_keys [("min_num_citations", .vint 5)]
      [("authors", .vstr "Alice Smith"), ("publication_year", .vint 2020)]
      = ∅ ∧
    get_conflict_keys [("min_num_citations", .vint 5)]
      [("num_citations", .vint 3)] = {"num_citations"} := by
  refine ⟨?_, by decide, by decide⟩
  intro p hp context v h2 h1
  simp only [List.mem_cons, List.not_mem_nil, or_false] at hp
  rcases hp with rfl | rfl | rfl
  · exact conflict_single_range "min_num_citations" "num_citations" geCmp
      rfl rfl rfl context v
      (preprocess_dlookup_none h2) (preprocess_dlookup_none h1)
  · exact conflict_single_range "min_publication_year" "publication_year" geCmp
      rfl rfl rfl context v
      (preprocess_dlookup_none h2) (preprocess_dlookup_none h1)
  · exact conflict_single_range "max_publication_year" "publication_year" leCmp
      rfl rfl rfl context v
      (preprocess_dlookup_none h2) (preprocess_dlookup_none h1)

theorem C7_witness :
    get_conflict_keys [("min_publication_year", PyVal.vint 2000)]
      [("authors", PyVal.vstr "bob")] = ∅ :=
  C7_range_one_directional.1 ("min_publication_year", "publication_year")
    (by decide) [("authors", PyVal.vstr "bob")] (PyVal.vint 2000)
    (by decide) (by decide)

/-- Claim C9: `check_goal_proposal_consistency` assumes exactly one document
bears the goal identifier.  When exactly one document matches
`{GOAL_KEY: candidateId}` it returns whether that document has no conflict
with the constraints (the destructuring succeeds); when zero or more than one
match, the destructuring fails — modelled by `none` — instead of returning a
boolean. -/
theorem C9_goal_identifier_lookup (kb : KB) (gid : PyVal)
    (constraints : Dict) :
    (∀ d, find_matching_docs kb [(GOAL_KEY, gid)] = [d] →
      check_goal_proposal_consistency kb gid constraints =
        some (decide (get_conflict_keys constraints d = ∅))) ∧
    ((find_matching_docs kb [(GOAL_KEY, gid)]).length ≠ 1 →
      check_goal_proposal_consistency kb gid constraints = none) := by
  constructor
  · intro d hd
    simp [check_goal_proposal_consistency, hd]
  · intro h
    unfold check_goal_proposal_consistency
    cases hm : find_matching_docs kb [(GOAL_KEY, gid)] with
    | nil => rfl
    | cons a t =>
      cases t with
      | nil => rw [hm] at h; simp at h
      | cons b t2 => rfl

theorem C9_witness :
    check_goal_proposal_consistency [[("doi", PyVal.vstr "D1")]]
      (PyVal.vstr "D1") [] =
      some (decide (get_conflict_keys [] [("doi", PyVal.vstr "D1")] = ∅)) :=
  (C9_goal_identifier_lookup _ _ _).1 [("doi", PyVal.vstr "D1")] (by decide)

theorem clookup_map_self (d : CountDict) (k : String) (v : ℕ)
    (h : (clookup d k).isSome = true) :
    clookup (d.map (fun p => if p.1 = k then (k, v) else p)) k = some v := by
  induction d with
  | nil => simp [clookup] at h
  | cons p t ih =>
    by_cases hp : p.1 = k
    · simp [clookup, hp]
    · simp only [clookup, if_neg hp] at h
      simp only [List.map_cons, if_neg hp, clookup, if_neg hp]
      exact ih h

theorem clookup_map_ne (d : CountDict) (k q : String) (v : ℕ) (hq : q ≠ k) :
    clookup (d.map (fun p => if p.1 = k then (k, v) else p)) q =
      clookup d q := by
  induction d with
  | nil => rfl
  | cons p t ih =>
    by_cases hp : p.1 = k
    · have h1 : ¬ (k = q) := fun he => hq he.symm
      have h2 : ¬ (p.1 = q) := by rw [hp]; exact h1
      simp only [List.map_cons, if_pos hp, clookup, if_neg h1, if_neg h2, ih]
    · simp only [List.map_cons, if_neg hp, clookup, ih]

theorem clookup_cinsert_self (d : CountDict) (k : String) (v : ℕ) :
    clookup (cinsert d k v) k = some v := by
  unfold cinsert
  by_cases h : (clookup d k).isSome = true
  · rw [if_pos h]
    exact clookup_map_self d k v h
  · rw [if_neg h]
    induction d with
    | nil => simp [clookup]
    | cons p t ih =>
      by_cases hp : p.1 = k
      · exfalso
        apply h
        simp [clookup, hp]
      · simp only [clookup, if_neg hp] at h
        simp only [List.cons_append, clookup, if_neg hp]
        exact ih h

theorem clookup_cinsert_ne (d : CountDict) (k q : String) (v : ℕ)
    (hq : q ≠ k) : clookup (cinsert d k v) q = clookup d q := by
  unfold cinsert
  by_cases h : (clookup d k).isSome = true
  · rw [if_pos h]
    exact clookup_map_ne d k q v hq
  · rw [if_neg h]
    induction d with
    | nil =>
      have h1 : ¬ (k = q) := fun he => hq he.symm
      simp [clookup, h1]
    | cons p t ih =>
      by_cases hp : p.1 = k
      · exfalso
        apply h
        simp [clookup, hp]
      · simp only [clookup, if_neg hp] at h
        simp only [List.cons_append, clookup]
        by_cases hpq : p.1 = q
        · simp [hpq]
        · simp only [if_neg hpq]
          exact ih h

theorem clookup_foldl_not_mem (f : String × PyVal → ℕ) (l : Dict)
    (acc : CountDict) (k : String) (h : ∀ p ∈ l, p.1 ≠ k) :
    clookup (l.foldl (fun md p => cinsert md p.1 (f p)) acc) k =
      clookup acc k := by
  induction l generalizing acc with
  | nil => rfl
  | cons p t ih =>
    simp only [List.foldl_cons]
    rw [ih _ (fun q hq => h q (List.mem_cons_of_mem _ hq))]
    exact clookup_cinsert_ne acc p.1 k (f p)
      (fun he => h p (List.mem_cons_self p t) he.symm)

theorem clookup_foldl_mem (f : String × PyVal → ℕ) (l : Dict)
    (acc : CountDict) (k : String) (v : PyVal)
    (hnd : (dkeys l).Nodup) (hm : (k, v) ∈ l) :
    clookup (l.foldl (fun md p => cinsert md p.1 (f p)) acc) k =
      some (f (k, v)) := by
  induction l generalizing acc with
  | nil => cases hm
  | cons p t ih =>
    simp only [dkeys, List.map_cons, List.nodup_cons] at hnd
    simp only [List.foldl_cons]
    rcases List.mem_cons.mp hm with he | ht
    · have hpk : p = (k, v) := he.symm
      subst hpk
      have hk : ∀ q ∈ t, q.1 ≠ k := by
        intro q hq he2
        exact hnd.1 (List.mem_map.mpr ⟨q, hq, he2⟩)
      rw [clookup_foldl_not_mem f t _ k hk]
      exact clookup_cinsert_self acc k (f (k, v))
    · exact ih _ (by simpa [dkeys] using hnd.2) ht

/-- Claim C6: for a constraint set over the schema keys (so `MA` is not a
constraint key, and keys are unique as in a Python dict),
`count_matches` maps the synthetic matches-all key `MA` to exactly
`len(find_matching_docs(constraints))`, maps every wildcard-valued
constraint key to the full knowledge-base size, and maps every other
constraint key to the number of documents matching that single constraint
alone. -/
theorem C6_count_matches (kb : KB) (constraints : Dict)
    (hMA : MA ∉ dkeys constraints) (hnd : (dkeys constraints).Nodup) :
    clookup (count_matches kb constraints) MA =
      some (find_matching_docs kb constraints).length ∧
    ∀ p ∈ constraints,
      clookup (count_matches kb constraints) p.1 =
        some (if p.2 = OWTv then get_kb_size kb
              else (find_matching_docs kb [p]).length) := by
  constructor
  · unfold count_matches
    rw [clookup_foldl_not_mem]
    · simp [clookup]
    · intro p hp he
      exact hMA (he ▸ List.mem_map.mpr ⟨p, hp, rfl⟩)
  · intro p hp
    unfold count_matches
    have h := clookup_foldl_mem
      (fun p => if p.2 = OWTv then kb.length
                else (find_matching_docs kb [p]).length)
      constraints [(MA, (find_matching_docs kb constraints).length)]
      p.1 p.2 hnd (by simpa using hp)
    simpa [get_kb_size] using h

theorem C6_witness :
    clookup
      (count_matches [[("authors", PyVal.vstr "Alice")]]
        [("authors", PyVal.vstr "Alice")]) MA =
      some (find_matching_docs [[("authors", PyVal.vstr "Alice")]]
        [("authors", PyVal.vstr "Alice")]).length :=
  (C6_count_matches [[("authors", PyVal.vstr "Alice")]]
    [("authors", PyVal.vstr "Alice")] (by decide) (by decide)).1

/-- Claim C3: `process_user_action` clears the agent proposal and resets the
constraint set to a copy of the raw user informs exactly when the action is
the reject special act or when the action's informs conflict with the current
agent informs; a non-special action then merges its informs into the current
user informs and the constraint set and its requests into the user request
set, and a non-conflicting non-special action leaves the agent informs
unchanged. -/
theorem C3_process_user_action (s : TrackerState) (ua : UserAction) :
    (ua = .reject →
      StateTracker.process_user_action s ua =
        { StateTracker.reset_agent_informs s with last_usr_act := some ua }) ∧
    (ua = .thanks →
      StateTracker.process_user_action s ua =
        { s with last_usr_act := some ua }) ∧
    (∀ informs requests, ua = .act informs requests →
      (get_conflict_keys informs s.curr_agt_inf ≠ ∅ →
        StateTracker.process_user_action s ua =
          { curr_agt_inf := [],
            curr_usr_inf := dupdate s.curr_usr_inf informs,
            curr_constraints := dupdate s.curr_usr_inf informs,
            curr_usr_req := s.curr_usr_req ∪ requests.toFinset,
            last_agt_act := s.last_agt_act,
            last_usr_act := some ua }) ∧
      (get_conflict_keys informs s.curr_agt_inf = ∅ →
        StateTracker.process_user_action s ua =
          { curr_agt_inf := s.curr_agt_inf,
            curr_usr_inf := dupdate s.curr_usr_inf informs,
            curr_constraints := dupdate s.curr_constraints informs,
            curr_usr_req := s.curr_usr_req ∪ requests.toFinset,
            last_agt_act := s.last_agt_act,
            last_usr_act := some ua })) := by
  refine ⟨?_, ?_, ?_⟩
  · rintro rfl; rfl
  · rintro rfl; rfl
  · rintro informs requests rfl
    constructor
    · intro hc
      simp [StateTracker.process_user_action,
        StateTracker.reset_agent_informs, hc]
    · intro hc
      simp [StateTracker.process_user_action,
        StateTracker.reset_agent_informs, hc]

theorem C3_witness :
    StateTracker.process_user_action StateTracker.reset .thanks =
      { StateTracker.reset with last_usr_act := some .thanks } :=
  (C3_process_user_action StateTracker.reset .thanks).2.1 rfl

/-- Claim C2: for an agent inform on key `K`, `process_agent_action` removes
`K` from the constraint set and queries the knowledge base for a matching
value given the remaining constraints.  If the query returns the
no-match sentinel: with a standing proposal it clears the agent informs and
returns the withdraw-current-proposals act, otherwise it returns the
no-match-available act.  If a value exists it returns the action extended
with that value, records it as the current agent inform for `K`, and puts
`K` with that value back into the constraint set. -/
theorem C2_process_agent_action (kb : KB) (s : TrackerState) (key : String)
    (choice : ℕ) :
    (find_matching_value kb key (derase s.curr_constraints key) choice = NMA →
      (s.curr_agt_inf ≠ [] →
        StateTracker.process_agent_action kb s (.inf key) choice =
          ({ curr_agt_inf := [],
             curr_usr_inf := s.curr_usr_inf,
             curr_constraints := s.curr_usr_inf,
             curr_usr_req := s.curr_usr_req,
             last_agt_act := some .wcp,
             last_usr_act := s.last_usr_act }, .wcp)) ∧
      (s.curr_agt_inf = [] →
        StateTracker.process_agent_action kb s (.inf key) choice =
          ({ s with curr_constraints := derase s.curr_constraints key,
                    last_agt_act := some .nma }, .nma))) ∧
    (∀ v, find_matching_value kb key (derase s.curr_constraints key) choice = v →
      v ≠ NMA →
      StateTracker.process_agent_action kb s (.inf key) choice =
        ({ s with
             curr_agt_inf := dinsert s.curr_agt_inf key (.vstr v),
             curr_constraints :=
               dinsert (derase s.curr_constraints key) key (.vstr v),
             last_agt_act := some (.infv key (.vstr v)) },
         .infv key (.vstr v))) := by
  constructor
  · intro hv
    constructor
    · intro hne
      simp [StateTracker.process_agent_action, hv, hne,
        StateTracker.reset_agent_informs]
    · intro he
      simp [StateTracker.process_agent_action, hv, he,
        StateTracker.reset_agent_informs]
  · intro v hv hvne
    subst hv
    simp [StateTracker.process_agent_action, hvne]

theorem C2_witness :
    StateTracker.process_agent_action [[("doi", PyVal.vstr "D1")]]
      StateTracker.reset (.inf "doi") 0 =
      ({ StateTracker.reset with
           curr_agt_inf := dinsert StateTracker.reset.curr_agt_inf "doi"
             (.vstr "D1"),
           curr_constraints :=
             dinsert (derase StateTracker.reset.curr_constraints "doi") "doi"
               (.vstr "D1"),
           last_agt_act := some (.infv "doi" (.vstr "D1")) },
       .infv "doi" (.vstr "D1")) :=
  (C2_process_agent_action [[("doi", PyVal.vstr "D1")]] StateTracker.reset
    "doi" 0).2 "D1" (by decide) (by decide)

theorem withinCap_add_experience {Exp : Type} (b : DMBuffers Exp) (e : Exp)
    (warmup : Bool) (hw : withinCap b) :
    withinCap (add_experience b e warmup).1 := by
  unfold add_experience
  rcases hw with ⟨hw1, hw2⟩
  by_cases hfull : (b.warmup_mem.length = b.warmup_mem_size ∧ warmup = true)
      ∨ (b.rl_mem.length = b.rl_mem_size ∧ warmup = false)
  · rw [if_pos hfull]
    exact ⟨hw1, hw2⟩
  · rw [if_neg hfull]
    cases warmup with
    | true =>
      have hne : b.warmup_mem.length ≠ b.warmup_mem_size :=
        fun he => hfull (Or.inl ⟨he, rfl⟩)
      rw [if_pos rfl]
      refine ⟨?_, hw2⟩
      simp only [List.length_append, List.length_cons, List.length_nil]
      omega
    | false =>
      have hne : b.rl_mem.length ≠ b.rl_mem_size :=
        fun he => hfull (Or.inr ⟨he, rfl⟩)
      rw [if_neg (fun h : (false = true) => Bool.false_ne_true h)]
      refine ⟨hw1, ?_⟩
      simp only [List.length_append, List.length_cons, List.length_nil]
      omega

theorem withinCap_run {Exp : Type} (b : DMBuffers Exp)
    (calls : List (Exp × Bool)) (hw : withinCap b) :
    withinCap (addExperienceRun b calls) := by
  induction calls generalizing b with
  | nil => exact hw
  | cons c t ih =>
    exact ih _ (withinCap_add_experience b c.1 c.2 hw)

/-- Claim C4: experience-buffer capacity.  From buffers within capacity,
`add_experience` on a buffer already holding its configured capacity returns
the "full" signal `true` and leaves both buffers unchanged; otherwise it
appends exactly one tuple to the selected buffer and returns `false`; and
over any sequence of calls starting within capacity, neither buffer ever
exceeds its configured capacity. -/
theorem C4_add_experience {Exp : Type} (b : DMBuffers Exp) (e : Exp)
    (warmup : Bool) (hw : withinCap b) :
    (warmup = true → b.warmup_mem.length = b.warmup_mem_size →
      add_experience b e warmup = (b, true)) ∧
    (warmup = false → b.rl_mem.length = b.rl_mem_size →
      add_experience b e warmup = (b, true)) ∧
    (warmup = true → b.warmup_mem.length ≠ b.warmup_mem_size →
      add_experience b e warmup =
        ({ b with warmup_mem := b.warmup_mem ++ [e] }, false)) ∧
    (warmup = false → b.rl_mem.length ≠ b.rl_mem_size →
      add_experience b e warmup =
        ({ b with rl_mem := b.rl_mem ++ [e] }, false)) ∧
    (∀ calls, withinCap (addExperienceRun b calls)) := by
  refine ⟨?_, ?_, ?_, ?_, fun calls => withinCap_run b calls hw⟩
  · rintro rfl hfull
    simp [add_experience, hfull]
  · rintro rfl hfull
    simp [add_experience, hfull]
  · rintro rfl hne
    simp [add_experience, hne]
  · rintro rfl hne
    simp [add_experience, hne]

theorem C4_witness :
    add_experience (DMBuffers.mk ([] : List ℕ) [] 0 1) 5 true =
      (DMBuffers.mk ([] : List ℕ) [] 0 1, true) :=
  (C4_add_experience (DMBuffers.mk ([] : List ℕ) [] 0 1) 5 true
    ⟨by simp, by simp⟩).1 rfl rfl

theorem getD_mem_of_lt {α : Type} {l : List α} {n : ℕ} (h : n < l.length)
    (d : α) : l.getD n d ∈ l := by
  induction l generalizing n with
  | nil => simp at h
  | cons a t ih =>
    cases n with
    | zero => simp [List.getD]
    | succ m =>
      simp only [List.getD_cons_succ]
      exact List.mem_cons_of_mem a (ih (by simpa using h))

theorem pickL_mem {l : List String} (i : ℕ) (h : l ≠ []) : pickL l i ∈ l :=
  getD_mem_of_lt (Nat.mod_lt i (List.length_pos.mpr h)) ""

theorem pickF_mem {s : Finset String} (i : ℕ) (h : s ≠ ∅) : pickF s i ∈ s := by
  have hne : sortedKeys s ≠ [] := by
    intro he
    apply h
    have hl : (sortedKeys s).length = s.card := Finset.length_sort _
    rw [he] at hl
    exact Finset.card_eq_zero.mp hl.symm
  exact (Finset.mem_sort _).mp (pickL_mem i hne)

theorem inf_mem_AGT_ACTS {k : String} (h : k ∈ AGT_INF_KEYS) :
    AgtAct.inf k ∈ AGT_ACTS := by
  unfold AGT_ACTS
  exact List.mem_append_left _ (List.mem_map.mpr ⟨k, h, rfl⟩)

theorem req_mem_AGT_ACTS {k : String} (h : k ∈ AGT_REQ_KEYS) :
    AgtAct.req k ∈ AGT_ACTS := by
  unfold AGT_ACTS
  exact List.mem_append_right _ (List.mem_map.mpr ⟨k, h, rfl⟩)

theorem RBInv_reset : RBInv RBAgent.reset :=
  ⟨Finset.empty_subset _, Finset.empty_subset _⟩

theorem RBInv_reset_agent_informs {s : RBState} (h : RBInv s) :
    RBInv (RBAgent.reset_agent_informs s) :=
  ⟨h.2, h.2⟩

theorem RBInv_process_user_act {s : RBState} {ua : UserAction}
    (h : RBInv s) (hwf : UAwf ua) :
    RBInv (RBAgent.process_user_act s ua) := by
  cases ua with
  | thanks => exact h
  | reject => exact RBInv_reset_agent_informs h
  | act informs requests =>
    have hreq : requests.toFinset ⊆ USR_REQ_KEYS.toFinset := by
      intro k hk
      exact List.mem_toFinset.mpr (hwf k (List.mem_toFinset.mp hk))
    have h1 : RBInv (if get_conflict_keys informs s.curr_agt_inf ≠ ∅
        then RBAgent.reset_agent_informs s else s) := by
      split
      · exact RBInv_reset_agent_informs h
      · exact h
    exact ⟨Finset.Subset.trans Finset.sdiff_subset
        (Finset.union_subset h1.1 hreq),
      Finset.Subset.trans Finset.sdiff_subset
        (Finset.union_subset h1.2 hreq)⟩

theorem RBInv_record {s : RBState} (h : RBInv s) (a : AgtProcessed) :
    RBInv (RBAgent.record_processed_action s a) := by
  cases a with
  | wcp => exact RBInv_reset_agent_informs h
  | infv k v => exact h
  | nma => exact h
  | req k => exact h

theorem RBInv_post {s : RBState} (h : RBInv s) (a : AgtAct) :
    RBInv (match a with
      | .inf k => { s with pending_usr_req := s.pending_usr_req.erase k }
      | .req _ => s) := by
  cases a with
  | inf k =>
    exact ⟨Finset.Subset.trans (Finset.erase_subset _ _) h.1, h.2⟩
  | req k => exact h

theorem RBInv_get_action {s : RBState} {ua : UserAction} (r : RBRand)
    (h : RBInv s) (hwf : UAwf ua) :
    RBInv (RBAgent.get_action s ua r).1 :=
  RBInv_post (RBInv_process_user_act h hwf) _

theorem RBInv_reachable {s : RBState} (h : RBReachable s) : RBInv s := by
  induction h with
  | reset => exact RBInv_reset
  | get s ua r hr hwf ih => exact RBInv_get_action r ih hwf
  | record s a hr ih => exact RBInv_record ih a

theorem select_action_mem (s : RBState) (r : RBRand)
    (hp : s.pending_usr_req ⊆ USR_REQ_KEYS.toFinset) :
    RBAgent.select_action s r ∈ AGT_ACTS := by
  unfold RBAgent.select_action
  split_ifs with h1 h2 h3 h4 h5
  · exact inf_mem_AGT_ACTS (List.mem_toFinset.mp (hp (pickF_mem r.i2 h1)))
  · exact inf_mem_AGT_ACTS (by decide)
  · exact req_mem_AGT_ACTS
      (List.mem_of_mem_filter (pickL_mem r.i3 h3.1))
  · exact inf_mem_AGT_ACTS
      (List.mem_of_mem_filter (pickL_mem r.i4 h4))
  · have hm := pickL_mem r.i5 h5.1
    have := (List.mem_filter.mp hm).2
    exact inf_mem_AGT_ACTS (by simpa using this)
  · exact req_mem_AGT_ACTS (pickL_mem r.i6 (by decide))

/-- Claim C8: for every user action built from the configured user
inform/request keys and every reachable internal state, `RBAgent.get_action`
returns an action in the configured `(INFORM, key)` / `(REQUEST, key)` list
`AGT_ACTS` (so it is never a special act, and the index lookup into
`AGT_ACTS` always succeeds). -/
theorem C8_get_action_action_space (s : RBState) (ua : UserAction)
    (r : RBRand) (hreach : RBReachable s) (hwf : UAwf ua) :
    (RBAgent.get_action s ua r).2 ∈ AGT_ACTS ∧
    List.indexOf (RBAgent.get_action s ua r).2 AGT_ACTS < AGT_ACTS.length := by
  have hinv := RBInv_reachable hreach
  have hinv1 := RBInv_process_user_act hinv hwf
  suffices hmem : (RBAgent.get_action s ua r).2 ∈ AGT_ACTS from
    ⟨hmem, List.indexOf_lt_length.mpr hmem⟩
  cases ua with
  | thanks => exact select_action_mem _ r hinv1.1
  | reject => exact select_action_mem _ r hinv1.1
  | act informs requests =>
    cases requests with
    | nil => exact select_action_mem _ r hinv1.1
    | cons q t =>
      exact inf_mem_AGT_ACTS (hwf _ (pickL_mem r.i1 (by simp)))

theorem C8_witness :
    (RBAgent.get_action RBAgent.reset .thanks
      (RBRand.mk true true true 0 0 0 0 0 0)).2 ∈ AGT_ACTS :=
  (C8_get_action_action_space RBAgent.reset .thanks
    (RBRand.mk true true true 0 0 0 0 0 0) RBReachable.reset trivial).1

theorem dlookup_dinsert_self (d : Dict) (k : String) (v : PyVal) :
    dlookup (dinsert d k v) k = some v := by
  unfold dinsert dcontains
  by_cases h : (dlookup d k).isSome = true
  · rw [if_pos h]
    induction d with
    | nil => simp [dlookup] at h
    | cons p t ih =>
      by_cases hp : p.1 = k
      · simp [dlookup, hp]
      · simp only [dlookup, if_neg hp] at h
        simp only [List.map_cons, if_neg hp, dlookup, if_neg hp]
        exact ih h
  · rw [if_neg h]
    induction d with
    | nil => simp [dlookup]
    | cons p t ih =>
      by_cases hp : p.1 = k
      · exfalso
        apply h
        simp [dlookup, hp]
      · simp only [dlookup, if_neg hp] at h
        simp only [List.cons_append, dlookup, if_neg hp]
        exact ih h

theorem dlookup_map_ne (d : Dict) (k q : String) (v : PyVal) (hq : q ≠ k) :
    dlookup (d.map (fun p => if p.1 = k then (k, v) else p)) q =
      dlookup d q := by
  induction d with
  | nil => rfl
  | cons p t ih =>
    by_cases hp : p.1 = k
    · have h1 : ¬ (k = q) := fun he => hq he.symm
      have h2 : ¬ (p.1 = q) := by rw [hp]; exact h1
      simp only [List.map_cons, if_pos hp, dlookup, if_neg h1, if_neg h2, ih]
    · simp only [List.map_cons, if_neg hp, dlookup, ih]

theorem dlookup_append_single_ne (d : Dict) (k q : String) (v : PyVal)
    (hq : q ≠ k) : dlookup (d ++ [(k, v)]) q = dlookup d q := by
  induction d with
  | nil =>
    have h1 : ¬ (k = q) := fun he => hq he.symm
    simp [dlookup, h1]
  | cons p t ih =>
    by_cases hpq : p.1 = q
    · simp [dlookup, hpq]
    · simp only [List.cons_append, dlookup, if_neg hpq]
      exact ih

theorem dlookup_dinsert_ne (d : Dict) (k q : String) (v : PyVal)
    (hq : q ≠ k) : dlookup (dinsert d k v) q = dlookup d q := by
  unfold dinsert
  split
  · exact dlookup_map_ne d k q v hq
  · exact dlookup_append_single_ne d k q v hq

theorem dcontains_dinsert_self (d : Dict) (k : String) (v : PyVal) :
    dcontains (dinsert d k v) k = true := by
  simp [dcontains, dlookup_dinsert_self]

theorem dcontains_dinsert_of {d : Dict} {q : String} (h : dcontains d q = true)
    (k : String) (v : PyVal) : dcontains (dinsert d k v) q = true := by
  by_cases hq : q = k
  · subst hq
    exact dcontains_dinsert_self d q v
  · unfold dcontains at h ⊢
    rw [dlookup_dinsert_ne d k q v hq]
    exact h

theorem pyRound_nonneg {q : ℚ} (h : 0 ≤ q) : 0 ≤ pyRound q := by
  unfold pyRound
  have hf : (0 : ℤ) ≤ ⌊q⌋ := Int.floor_nonneg.mpr h
  split_ifs <;> omega

theorem finish_components (s : UsrState) (action : UserAction) (d : Bool) :
    ∃ s1, UserSimulator.finish s action d =
      (s1, action, UserSimulator.rewardOf s1 d, d, s1.satisfied) := by
  unfold UserSimulator.finish
  exact ⟨_, rfl⟩

theorem rewardOf_spec (s : UsrState) (d : Bool)
    (hinf : s.goal.informs ≠ []) :
    (d = false → UserSimulator.rewardOf s d = -1) ∧
    (d = true → s.satisfied = true → UserSimulator.rewardOf s d =
      2 * (s.patience : ℤ) +
        ((s.goal.requests.length : ℤ) + (s.goal.informs.length : ℤ))) ∧
    (d = true → s.satisfied = false →
      UserSimulator.rewardOf s d =
        - pyRound ((((s.not_answ_req.card : ℚ) /
            ((s.goal.requests.length : ℚ) + 1))
          + ((s.not_sent_inf.card : ℚ) / (s.goal.informs.length : ℚ)))
          * (s.patience : ℚ)) ∧
      UserSimulator.rewardOf s d ≤ 0) ∧
    (UserSimulator.rewardOf s d = 2 * (s.patience : ℤ) +
        ((s.goal.requests.length : ℤ) + (s.goal.informs.length : ℤ)) ↔
      d = true ∧ s.satisfied = true) := by
  have hlen : 1 ≤ s.goal.informs.length := List.length_pos.mpr hinf
  have hRS : 1 ≤ 2 * (s.patience : ℤ) +
      ((s.goal.requests.length : ℤ) + (s.goal.informs.length : ℤ)) := by
    omega
  cases d with
  | false =>
    refine ⟨fun _ => rfl, ?_, ?_, ?_⟩
    · intro h
      cases h
    · intro h
      cases h
    · constructor
      · intro he
        rw [show UserSimulator.rewardOf s false = -1 from rfl] at he
        omega
      · rintro ⟨h, _⟩
        cases h
  | true =>
    cases hs : s.satisfied with
    | true =>
      have hR : UserSimulator.rewardOf s true = 2 * (s.patience : ℤ) +
          ((s.goal.requests.length : ℤ) + (s.goal.informs.length : ℤ)) := by
        simp [UserSimulator.rewardOf, hs]
      refine ⟨?_, fun _ _ => hR, ?_, ?_⟩
      · intro h
        cases h
      · intro _ h
        simp at h
      · simp [hR, hs]
    | false =>
      have hR : UserSimulator.rewardOf s true =
          - pyRound ((((s.not_answ_req.card : ℚ) /
              ((s.goal.requests.length : ℚ) + 1))
            + ((s.not_sent_inf.card : ℚ) / (s.goal.informs.length : ℚ)))
            * (s.patience : ℚ)) := by
        simp [UserSimulator.rewardOf, hs]
      have hle : UserSimulator.rewardOf s true ≤ 0 := by
        rw [hR]
        have h0 : (0 : ℚ) ≤ (((s.not_answ_req.card : ℚ) /
            ((s.goal.requests.length : ℚ) + 1))
          + ((s.not_sent_inf.card : ℚ) / (s.goal.informs.length : ℚ)))
          * (s.patience : ℚ) := by positivity
        have := pyRound_nonneg h0
        omega
      refine ⟨?_, ?_, fun _ _ => ⟨hR, hle⟩, ?_⟩
      · intro h
        cases h
      · intro _ h
        simp at h
      · constructor
        · intro he
          exfalso
          rw [he] at hle
          omega
        · rintro ⟨_, h⟩
          simp at h

theorem step_components (chk : PyVal → Dict → Bool) (s0 : UsrState)
    (aa : AgtProcessed) (r : USRand) (s2 : UsrState) (act : UserAction)
    (rew : ℤ) (d sat : Bool)
    (h : UserSimulator.step chk s0 aa r = some (s2, act, rew, d, sat)) :
    rew = UserSimulator.rewardOf s2 d ∧ sat = s2.satisfied := by
  unfold UserSimulator.step at h
  cases aa with
  | nma =>
    dsimp only at h
    obtain ⟨s1b, heb⟩ := finish_components _ _ _
    rw [heb] at h
    simp only [Option.some.injEq, Prod.mk.injEq] at h
    obtain ⟨h1, h2, h3, h4, h5⟩ := h
    subst h1
    subst h4
    exact ⟨h3.symm, h5.symm⟩
  | wcp =>
    dsimp only at h
    split at h
    · split at h
      · cases h
      · obtain ⟨s1b, heb⟩ := finish_components _ _ _
        rw [heb] at h
        simp only [Option.some.injEq, Prod.mk.injEq] at h
        obtain ⟨h1, h2, h3, h4, h5⟩ := h
        subst h1
        subst h4
        exact ⟨h3.symm, h5.symm⟩
    · obtain ⟨s1b, heb⟩ := finish_components _ _ _
      rw [heb] at h
      simp only [Option.some.injEq, Prod.mk.injEq] at h
      obtain ⟨h1, h2, h3, h4, h5⟩ := h
      subst h1
      subst h4
      exact ⟨h3.symm, h5.symm⟩
  | infv k v =>
    dsimp only at h
    split at h
    · split at h
      · cases h
      · obtain ⟨s1b, heb⟩ := finish_components _ _ _
        rw [heb] at h
        simp only [Option.some.injEq, Prod.mk.injEq] at h
        obtain ⟨h1, h2, h3, h4, h5⟩ := h
        subst h1
        subst h4
        exact ⟨h3.symm, h5.symm⟩
    · obtain ⟨s1b, heb⟩ := finish_components _ _ _
      rw [heb] at h
      simp only [Option.some.injEq, Prod.mk.injEq] at h
      obtain ⟨h1, h2, h3, h4, h5⟩ := h
      subst h1
      subst h4
      exact ⟨h3.symm, h5.symm⟩
  | req k =>
    dsimp only at h
    split at h
    · split at h
      · cases h
      · obtain ⟨s1b, heb⟩ := finish_components _ _ _
        rw [heb] at h
        simp only [Option.some.injEq, Prod.mk.injEq] at h
        obtain ⟨h1, h2, h3, h4, h5⟩ := h
        subst h1
        subst h4
        exact ⟨h3.symm, h5.symm⟩
    · obtain ⟨s1b, heb⟩ := finish_components _ _ _
      rw [heb] at h
      simp only [Option.some.injEq, Prod.mk.injEq] at h
      obtain ⟨h1, h2, h3, h4, h5⟩ := h
      subst h1
      subst h4
      exact ⟨h3.symm, h5.symm⟩

theorem USInv_reset (goal : UsrGoal) (patience : ℕ) :
    USInv (UserSimulator.reset goal patience) := by
  left
  simp [UserSimulator.reset, GOAL_KEY]

theorem USInv_reset_agent_informs (s : UsrState) :
    USInv (UserSimulator.reset_agent_informs s) := by
  left
  simp [UserSimulator.reset_agent_informs, GOAL_KEY]

theorem USInv_rti_conflict (s : UsrState) (ck : Finset String) :
    USInv (UserSimulator.rti_conflict_state s ck) := by
  left
  simp [UserSimulator.rti_conflict_state, UserSimulator.reset_agent_informs,
    GOAL_KEY]

theorem USInv_insert_case {na : Finset String} {ca : Dict}
    (k : String) (v : PyVal)
    (h : GOAL_KEY ∈ na ∨ dcontains ca GOAL_KEY = true) :
    (GOAL_KEY ∈ na.erase k ∨ dcontains (dinsert ca k v) GOAL_KEY = true) ∧
    (na.erase k = ∅ → dcontains (dinsert ca k v) GOAL_KEY = true) := by
  by_cases hk : k = GOAL_KEY
  · subst hk
    exact ⟨Or.inr (dcontains_dinsert_self _ _ _),
      fun _ => dcontains_dinsert_self _ _ _⟩
  · rcases h with hmem | hc
    · have hm2 : GOAL_KEY ∈ na.erase k :=
        Finset.mem_erase.mpr ⟨fun he => hk he.symm, hmem⟩
      refine ⟨Or.inl hm2, fun hu => ?_⟩
      exfalso
      rw [hu] at hm2
      exact Finset.not_mem_empty _ hm2
    · exact ⟨Or.inr (dcontains_dinsert_of hc _ _),
        fun _ => dcontains_dinsert_of hc _ _⟩

theorem rti_update_state_spec (s : UsrState) (k : String) (v : PyVal)
    (hinv : USInv s) :
    USInv (UserSimulator.rti_update_state s k v) ∧
    ((UserSimulator.rti_update_state s k v).satisfied = true →
      dcontains (UserSimulator.rti_update_state s k v).curr_agt_inf GOAL_KEY
        = true) := by
  simp only [UserSimulator.rti_update_state]
  split_ifs with hg1 hg2 hg3
  · have h := USInv_reset_agent_informs s
    exact ⟨(USInv_insert_case k v h).1, fun hs => (USInv_insert_case k v h).2
      (Finset.union_eq_empty.mp (of_decide_eq_true hs)).1⟩
  · have h := USInv_reset_agent_informs s
    exact ⟨(USInv_insert_case k v h).1, fun hs => (USInv_insert_case k v h).2
      (Finset.union_eq_empty.mp (of_decide_eq_true hs)).1⟩
  · exact ⟨(USInv_insert_case k v hinv).1,
      fun hs => (USInv_insert_case k v hinv).2
        (Finset.union_eq_empty.mp (of_decide_eq_true hs)).1⟩
  · exact ⟨(USInv_insert_case k v hinv).1,
      fun hs => (USInv_insert_case k v hinv).2
        (Finset.union_eq_empty.mp (of_decide_eq_true hs)).1⟩

theorem response_to_inform_spec (s : UsrState) (k : String) (v : PyVal)
    (r : USRand) (hinv : USInv s) (hsat : s.satisfied = false) :
    USInv (UserSimulator.response_to_inform s k v r).1 ∧
    ((UserSimulator.response_to_inform s k v r).1.satisfied = true →
      dcontains (UserSimulator.response_to_inform s k v r).1.curr_agt_inf
        GOAL_KEY = true) := by
  simp only [UserSimulator.response_to_inform]
  split_ifs with hc hb
  · refine ⟨USInv_rti_conflict _ _, fun hs => ?_⟩
    exfalso
    rw [show (UserSimulator.rti_conflict_state s
      (get_conflict_keys [(k, v)] s.goal.informs)).satisfied = s.satisfied
      from rfl, hsat] at hs
    cases hs
  · refine ⟨USInv_rti_conflict _ _, fun hs => ?_⟩
    exfalso
    rw [show (UserSimulator.rti_conflict_state s
      (get_conflict_keys [(k, v)] s.goal.informs)).satisfied = s.satisfied
      from rfl, hsat] at hs
    cases hs
  · exact rti_update_state_spec s k v hinv

theorem finish_inv (X : UsrState) (act : UserAction) (D : Bool)
    (h1 : USInv X) (h2 : X.satisfied = false) :
    USInv (UserSimulator.finish X act D).1 ∧
      (UserSimulator.finish X act D).1.satisfied = false := by
  simp only [UserSimulator.finish]
  split
  · split <;> exact ⟨h1, h2⟩
  · exact ⟨h1, h2⟩

theorem step_isSome (chk : PyVal → Dict → Bool) (s : UsrState)
    (aa : AgtProcessed) (r : USRand)
    (hinv : USInv s) (hsat : s.satisfied = false) :
    (UserSimulator.step chk s aa r).isSome = true := by
  unfold UserSimulator.step
  cases aa with
  | nma => rfl
  | wcp =>
    dsimp only
    rw [if_neg]
    · rfl
    · intro hss
      have hss2 : s.satisfied = true := hss
      rw [hsat] at hss2
      cases hss2
  | req k =>
    dsimp only
    rw [if_neg]
    · rfl
    · intro hss
      have hss2 : s.satisfied = true := hss
      rw [hsat] at hss2
      cases hss2
  | infv k v =>
    dsimp only
    by_cases hq : (UserSimulator.response_to_inform
        { s with round := s.round + 1 } k v r).1.satisfied = true
    · rw [if_pos hq]
      have hspec := response_to_inform_spec
        { s with round := s.round + 1 } k v r hinv hsat
      have hd := hspec.2 hq
      unfold dcontains at hd
      obtain ⟨g, hg⟩ := Option.isSome_iff_exists.mp hd
      rw [hg]
      rfl
    · rw [if_neg hq]
      rfl

theorem finish_fst_inv {X : UsrState} {A : UserAction} {D : Bool}
    {s1 : UsrState} {a2 : UserAction} {rew : ℤ} {d2 sat2 : Bool}
    (he : UserSimulator.finish X A D = (s1, a2, rew, d2, sat2))
    (h1 : USInv X) (h2 : X.satisfied = false) :
    USInv s1 ∧ s1.satisfied = false := by
  have hF := finish_inv X A D h1 h2
  rw [he] at hF
  exact hF

theorem step_preserves (chk : PyVal → Dict → Bool) (s : UsrState)
    (aa : AgtProcessed) (r : USRand) (s2 : UsrState) (act : UserAction)
    (rew : ℤ) (sat : Bool)
    (hinv : USInv s) (hsat : s.satisfied = false)
    (h : UserSimulator.step chk s aa r = some (s2, act, rew, false, sat)) :
    USInv s2 ∧ s2.satisfied = false := by
  unfold UserSimulator.step at h
  cases aa with
  | nma =>
    dsimp only at h
    obtain ⟨s1b, heb⟩ := finish_components _ _ _
    rw [heb] at h
    simp only [Option.some.injEq, Prod.mk.injEq] at h
    exact absurd h.2.2.2.1 (by simp)
  | wcp =>
    dsimp only at h
    rw [if_neg] at h
    · exact finish_fst_inv (Option.some.inj h)
        (USInv_reset_agent_informs _) hsat
    · intro hss
      have hss2 : s.satisfied = true := hss
      rw [hsat] at hss2
      cases hss2
  | req k =>
    dsimp only at h
    rw [if_neg] at h
    · exact finish_fst_inv (Option.some.inj h) hinv hsat
    · intro hss
      have hss2 : s.satisfied = true := hss
      rw [hsat] at hss2
      cases hss2
  | infv k v =>
    dsimp only at h
    by_cases hq : (UserSimulator.response_to_inform
        { s with round := s.round + 1 } k v r).1.satisfied = true
    · rw [if_pos hq] at h
      have hspec := response_to_inform_spec
        { s with round := s.round + 1 } k v r hinv hsat
      have hd := hspec.2 hq
      unfold dcontains at hd
      obtain ⟨g, hg⟩ := Option.isSome_iff_exists.mp hd
      rw [hg] at h
      dsimp only at h
      obtain ⟨s1b, heb⟩ := finish_components _ _ _
      rw [heb] at h
      simp only [Option.some.injEq, Prod.mk.injEq] at h
      have hfour := h.2.2.2.1
      rw [hq] at hfour
      simp at hfour
    · rw [if_neg hq] at h
      have hsat2 : (UserSimulator.response_to_inform
          { s with round := s.round + 1 } k v r).1.satisfied = false := by
        cases hX : (UserSimulator.response_to_inform
            { s with round := s.round + 1 } k v r).1.satisfied with
        | false => rfl
        | true => exact absurd hX hq
      have hspec := response_to_inform_spec
        { s with round := s.round + 1 } k v r hinv hsat
      exact finish_fst_inv (Option.some.inj h) hspec.1 hsat2

theorem USInv_reachable (chk : PyVal → Dict → Bool) {s : UsrState}
    (h : USReachable chk s) : USInv s ∧ s.satisfied = false := by
  induction h with
  | reset g p => exact ⟨USInv_reset g p, rfl⟩
  | init s r hr ih =>
    have hf : (UserSimulator.get_init_action s r).1.not_answ_req =
        s.not_answ_req ∧
        (UserSimulator.get_init_action s r).1.curr_agt_inf =
          s.curr_agt_inf ∧
        (UserSimulator.get_init_action s r).1.satisfied = s.satisfied := by
      simp only [UserSimulator.get_init_action]
      split <;> split <;> exact ⟨rfl, rfl, rfl⟩
    constructor
    · unfold USInv at ih ⊢
      rw [hf.1, hf.2.1]
      exact ih.1
    · rw [hf.2.2]
      exact ih.2
  | step s aa r s2 act rew sat hr hstep ih =>
    exact step_preserves chk s aa r s2 act rew sat ih.1 ih.2 hstep

/-- Claim C10: in every state reachable from `reset` within an episode, the
goal key is pending in the not-yet-answered request set or already proposed
by the agent, so the post-termination consistency recheck in `step` never
looks up a missing goal-key proposal: `step` never hits its `KeyError` site
(modelled by `none`). -/
theorem C10_goal_key_lookup_total (chk : PyVal → Dict → Bool) (s : UsrState)
    (hreach : USReachable chk s) (aa : AgtProcessed) (r : USRand) :
    (UserSimulator.step chk s aa r).isSome = true := by
  obtain ⟨hinv, hsat⟩ := USInv_reachable chk hreach
  exact step_isSome chk s aa r hinv hsat

theorem C10_witness :
    (UserSimulator.step (fun _ _ => true)
      (UserSimulator.reset
        { informs := [("authors", PyVal.vstr "a")], requests := [] } 15)
      (.req "authors") (USRand.mk false false false 0 0)).isSome = true :=
  C10_goal_key_lookup_total (fun _ _ => true) _
    (USReachable.reset _ 15) (.req "authors") (USRand.mk false false false 0 0)

/-- Claim C1 (amended): the reward contract of `UserSimulator.step`.  A
non-terminal turn yields reward `-1`; a turn ending the episode satisfied
yields exactly `2*patience + |goal informs| + |goal requests|`, and this
value is returned iff the episode ends satisfied; a turn ending the episode
unsatisfied yields
`-round((unanswered/(|goal requests|+1) + unsent/|goal informs|) * patience)`
— the rounding applied to the whole weighted product, as in the source —
which is always ≤ 0.  Goals have at least one inform (the source divides by
`|goal informs|`). -/
theorem C1_step_reward_contract (chk : PyVal → Dict → Bool) (s0 : UsrState)
    (aa : AgtProcessed) (r : USRand) (s2 : UsrState) (act : UserAction)
    (rew : ℤ) (d sat : Bool)
    (hstep : UserSimulator.step chk s0 aa r = some (s2, act, rew, d, sat))
    (hinf : s2.goal.informs ≠ []) :
    (d = false → rew = -1) ∧
    (d = true → sat = true → rew = 2 * (s2.patience : ℤ) +
      ((s2.goal.requests.length : ℤ) + (s2.goal.informs.length : ℤ))) ∧
    (d = true → sat = false →
      rew = - pyRound ((((s2.not_answ_req.card : ℚ) /
          ((s2.goal.requests.length : ℚ) + 1))
        + ((s2.not_sent_inf.card : ℚ) / (s2.goal.informs.length : ℚ)))
        * (s2.patience : ℚ)) ∧ rew ≤ 0) ∧
    (rew = 2 * (s2.patience : ℤ) +
      ((s2.goal.requests.length : ℤ) + (s2.goal.informs.length : ℤ)) ↔
      d = true ∧ sat = true) := by
  obtain ⟨hrew, hsat⟩ := step_components chk s0 aa r s2 act rew d sat hstep
  subst hrew
  subst hsat
  have hspec := rewardOf_spec s2 d hinf
  exact hspec

theorem C1_witness : (-1 : ℤ) = -1 ∧ ((-5 : ℤ) ≤ 0) := by
  constructor
  · rfl
  · have h := (C1_step_reward_contract (fun _ _ => true) cexS
      (.req "publisher") cexR ({ cexS with round := 15 })
      (.act [] ["publisher"])
      (UserSimulator.rewardOf { cexS with round := 15 } true) true false
      rfl (by decide)).2.2.1 rfl rfl
    have h5 : UserSimulator.rewardOf { cexS with round := 15 } true = -5 := by
      have h2 := h.1
      rw [h2]
      norm_num [cexS, pyRound]
    rw [← h5]
    exact h.2

/-- Counterexample to claim C1 as stated: the claim parenthesizes the
unsuccessful-termination reward as `-round(ratio sum) * patience`, but the
source computes `-round(ratio sum * patience)`.  At a concrete episode end
(patience 15, 2 goal requests, 1 goal inform, 1 unanswered request, 0 unsent
informs) the code yields reward `-5`, while the claim's formula yields `0`. -/
theorem C1_reward_counterexample :
    UserSimulator.step (fun _ _ => true) cexS (.req "publisher") cexR =
      some ({ cexS with round := 15 }, .act [] ["publisher"], -5, true,
        false) ∧
    claim_unsat_reward 15 2 1 1 0 = 0 ∧ (-5 : ℤ) ≠ 0 := by
  refine ⟨?_, ?_, by norm_num⟩
  · have h1 : UserSimulator.step (fun _ _ => true) cexS
        (.req "publisher") cexR =
        some ({ cexS with round := 15 }, .act [] ["publisher"],
          UserSimulator.rewardOf { cexS with round := 15 } true, true,
          false) := rfl
    rw [h1]
    have h5 : UserSimulator.rewardOf { cexS with round := 15 } true = -5 := by
      simp only [UserSimulator.rewardOf, cexS]
      norm_num [pyRound]
    rw [h5]
  · norm_num [claim_unsat_reward, pyRound]

theorem make_batches_spec {α : Type} (bs : ℕ) (hbs : bs ≠ 0) :
    ∀ (n : ℕ) (l : List α), l.length ≤ n →
      (make_batches l bs).flatten = l ∧
      ∀ b ∈ make_batches l bs, b.length ≤ bs := by
  intro n
  induction n with
  | zero =>
    intro l hl
    have hnil : l = [] := List.eq_nil_of_length_eq_zero (Nat.le_zero.mp hl)
    subst hnil
    simp [make_batches]
  | succ m ih =>
    intro l hl
    cases l with
    | nil => simp [make_batches]
    | cons a t =>
      obtain ⟨bs2, rfl⟩ : ∃ b2, bs = b2 + 1 := ⟨bs - 1, by omega⟩
      simp only [make_batches]
      have hdrop : ((a :: t).drop (bs2 + 1)).length ≤ m := by
        simp only [List.length_drop, List.length_cons]
        simp only [List.length_cons] at hl
        omega
      obtain ⟨hj, hb⟩ := ih _ hdrop
      constructor
      · rw [List.flatten_cons, hj, List.take_append_drop]
      · intro b hb2
        rcases List.mem_cons.mp hb2 with rfl | hmem
        · rw [List.length_take]
          exact min_le_left _ _
        · exact hb b hmem

/-- Claim C5 (amended): the `RLAgent.train` contract.  The behavior weights
are cloned into a frozen target network used for the whole call (by
construction of `RLAgent.train`); the shuffled experience set is partitioned
into minibatches of the configured batch size whose concatenation is the
whole set; for each experience only the taken action's target output is
changed — to `reward` (plus `gamma * 0`) when terminal, to the Double-DQN
target `reward + gamma * targetQ(s')[argmax behaviorQ(s')]` when the agent
is configured with `vanilla=False`, and to the vanilla-DQN target
`reward + gamma * max targetQ(s')` under the default `vanilla=True`; and
epsilon is multiplied by the configured decay factor exactly once per
call. -/
theorem C5_train_contract {σ : Type} (gamma : ℚ) (vanilla : Bool)
    (batchSize : ℕ) (epsilonDecay : ℚ)
    (fit : QNet σ → List (Experience σ) → List (List ℚ) → QNet σ)
    (beh0 : QNet σ) (epsilon : ℚ) (shuffled : List (Experience σ))
    (hbs : batchSize ≠ 0) :
    ((RLAgent.train gamma vanilla batchSize epsilonDecay fit beh0 epsilon
        shuffled).2 = epsilon * epsilonDecay) ∧
    ((make_batches shuffled batchSize).flatten = shuffled) ∧
    (∀ b ∈ make_batches shuffled batchSize, b.length ≤ batchSize) ∧
    (∀ (q_row tar_row beh_row : List ℚ) (a : ℕ) (rr : ℚ),
      q_target_row gamma vanilla q_row tar_row beh_row a rr true =
        q_row.set a (rr + gamma * 0)) ∧
    (vanilla = false → ∀ (q_row tar_row beh_row : List ℚ) (a : ℕ) (rr : ℚ),
      q_target_row gamma vanilla q_row tar_row beh_row a rr false =
        q_row.set a (rr + gamma * (tar_row.getD (argmaxIdx beh_row) 0))) ∧
    (vanilla = true → ∀ (q_row tar_row beh_row : List ℚ) (a : ℕ) (rr : ℚ),
      q_target_row gamma vanilla q_row tar_row beh_row a rr false =
        q_row.set a (rr + gamma * listMax tar_row)) ∧
    (∀ (q_row tar_row beh_row : List ℚ) (a : ℕ) (rr : ℚ) (dd : Bool)
      (j : ℕ), j ≠ a →
      (q_target_row gamma vanilla q_row tar_row beh_row a rr dd)[j]? =
        q_row[j]?) := by
  obtain ⟨hj, hb⟩ := make_batches_spec batchSize hbs shuffled.length
    shuffled le_rfl
  refine ⟨rfl, hj, hb, ?_, ?_, ?_, ?_⟩
  · intro q_row tar_row beh_row a rr
    simp [q_target_row]
  · intro hv q_row tar_row beh_row a rr
    simp [q_target_row, hv]
  · intro hv q_row tar_row beh_row a rr
    simp [q_target_row, hv]
  · intro q_row tar_row beh_row a rr dd j hja
    simp only [q_target_row]
    exact List.getElem?_set_ne (fun he => hja he.symm)

/-- Counterexample to claim C5 as stated: under the default configuration
(`vanilla=True` in `RLAgent.__init__`, which the training scripts use
unchanged) `RLAgent.train` computes the vanilla-DQN target
`reward + gamma * max targetQ(s')`, not the Double-DQN target
`reward + gamma * targetQ(s')[argmax behaviorQ(s')]`: with target row
`[0, 1]` and behavior row `[1, 0]` the updated entry is `1` while the
Double-DQN target is `0`. -/
theorem C5_counterexample :
    (q_target_row 1 RLAgent.default_vanilla [5, 5] [0, 1] [1, 0] 0 0
      false)[0]? = some 1 ∧
    (0 : ℚ) + 1 * (([0, 1] : List ℚ).getD (argmaxIdx [1, 0]) 0) = 0 ∧
    (1 : ℚ) ≠ 0 := by
  refine ⟨?_, ?_, by norm_num⟩
  · have hm : listMax [0, 1] = 1 := by
      simp [listMax]
    simp [q_target_row, RLAgent.default_vanilla, hm]
  · have hm : listMax [1, 0] = 1 := by
      simp [listMax]
    have ha : argmaxIdx [1, 0] = 0 := by
      simp [argmaxIdx, hm, List.indexOf, List.findIdx_cons]
    rw [ha]
    norm_num

theorem C5_witness :
    (@RLAgent.train ℕ 1 false 2 (1/2) (fun m _ _ => m) (fun _ => [0]) 1
      []).2 = 1 * (1/2) :=
  (C5_train_contract 1 false 2 (1/2) (fun m _ _ => m) (fun _ => [0]) 1 []
    (by norm_num)).1
